import Mathlib

/-!
Verification of the Mandelbrot escape-time renderer, sequential variant
(`mandelbrot_seq.c`) and pthread variant (`mandelbrot_pth.c`).

Modelling conventions (shallow embedding):
* C `double` values are modelled as exact rationals (`ℚ`); all numeric
  literals appearing in the relevant code paths (0, 2, 4, pixel steps at the
  concrete inputs used in witnesses) are exactly representable, and the
  properties settled here are structural, so the rational model is faithful.
* C `int` iteration counts are modelled as `ℕ` (they are always ≥ 0 and
  bounded by `iteration_max`); the colour-scheme selector is modelled as `ℤ`
  because a caller may pass a negative value.
* A pixel of the output buffer is the ordered byte triple
  `(byte0, byte1, byte2)` that the code stores at
  `image_buffer[i_y_max*y + x][0..2]`.  `write_to_file` emits those three
  bytes in order into a PPM `P6` stream, whose channel order is R, G, B, so
  byte0 is the red channel, byte1 the green channel, byte2 the blue channel.
* The pixel buffer is a map from flat slot index to an optional triple
  (`none` = never written); writes of the three bytes of one pixel are
  collapsed into one triple write, which is faithful because the code always
  writes the three bytes of a slot together.
* The pthread dispatch is modelled as the workers' writes folded in worker
  order; because the row stripes are disjoint (proved below) and every write
  value depends only on the slot, any serialization yields this same buffer,
  so the fold is a faithful model of the concurrent execution.
-/

namespace Mandelbrot

/-- Maximum iteration count `iteration_max = 0xFFF`, shared by both variants. -/
def iteration_max : Nat := 0xFFF

/-- Local `first_color` of `update_rgb_buffer`: high nibble of the lowest 12
bits, scaled by 17, forced to 0 when the point never escaped. -/
def first_color (iteration : Nat) : Nat :=
  if iteration ≥ iteration_max then 0 else 17 * ((iteration &&& 0xF00) >>> 8)

/-- Local `second_color` of `update_rgb_buffer`: middle nibble scaled by 17,
forced to 0 when the point never escaped. -/
def second_color (iteration : Nat) : Nat :=
  if iteration ≥ iteration_max then 0 else 17 * ((iteration &&& 0x0F0) >>> 4)

/-- Local `third_color` of `update_rgb_buffer`: low nibble scaled by 17,
forced to 0 when the point never escaped. -/
def third_color (iteration : Nat) : Nat :=
  if iteration ≥ iteration_max then 0 else 17 * (iteration &&& 0x00F)

/-- The colour mapper `update_rgb_buffer` of both variants, reduced to the
byte triple `(byte0, byte1, byte2)` it stores at the pixel's slot.  The
if/else-if chain on `color_sch` is translated branch for branch from the
source; the final `else` catches every selector other than 0,1,2,3,4. -/
def update_rgb_buffer (iteration : Nat) (color_sch : Int) : Nat × Nat × Nat :=
  if color_sch = 0 then
    (third_color iteration, second_color iteration, first_color iteration)
  else if color_sch = 1 then
    (second_color iteration, first_color iteration, third_color iteration)
  else if color_sch = 2 then
    (first_color iteration, third_color iteration, second_color iteration)
  else if color_sch = 3 then
    (first_color iteration, second_color iteration, third_color iteration)
  else if color_sch = 4 then
    (third_color iteration, first_color iteration, second_color iteration)
  else
    (second_color iteration, third_color iteration, first_color iteration)

/-- Spec §4.3 step 1, channel `a = ((n >> 8) & 0xF) * 17` (spec's wording,
for the refinement comparison). -/
def chanA (n : Nat) : Nat := ((n >>> 8) &&& 0xF) * 17

/-- Spec §4.3 step 1, channel `b = ((n >> 4) & 0xF) * 17`. -/
def chanB (n : Nat) : Nat := ((n >>> 4) &&& 0xF) * 17

/-- Spec §4.3 step 1, channel `c = (n & 0xF) * 17`. -/
def chanC (n : Nat) : Nat := (n &&& 0xF) * 17

/-- Spec §4.3 channel `a` after the step-2 never-escaped override. -/
def specA (n : Nat) : Nat := if n ≥ iteration_max then 0 else chanA n

/-- Spec §4.3 channel `b` after the step-2 never-escaped override. -/
def specB (n : Nat) : Nat := if n ≥ iteration_max then 0 else chanB n

/-- Spec §4.3 channel `c` after the step-2 never-escaped override. -/
def specC (n : Nat) : Nat := if n ≥ iteration_max then 0 else chanC n

/-- The colour mapper exactly as the spec's §4.3 table prescribes it
(R,G,B) = row `s` of the table applied to `(a,b,c)`; this is the spec-side
definition for the refinement claims about the table. -/
def spec_color_mapper (n : Nat) (s : Int) : Nat × Nat × Nat :=
  if s = 0 then (specA n, specB n, specC n)
  else if s = 1 then (specB n, specA n, specC n)
  else if s = 2 then (specA n, specC n, specB n)
  else if s = 3 then (specA n, specB n, specC n)
  else if s = 4 then (specC n, specA n, specB n)
  else (specB n, specC n, specA n)

theorem testBit_3840 (i : Nat) : Nat.testBit 3840 (8 + i) = Nat.testBit 15 i := by
  rcases Nat.lt_or_ge i 4 with h | h
  · interval_cases i <;> decide
  · have h1 : Nat.testBit 15 i = false := by
      apply Nat.testBit_lt_two_pow
      calc (15 : Nat) < 2 ^ 4 := by norm_num
        _ ≤ 2 ^ i := Nat.pow_le_pow_right (by norm_num) h
    have h2 : Nat.testBit 3840 (8 + i) = false := by
      apply Nat.testBit_lt_two_pow
      calc (3840 : Nat) < 2 ^ 12 := by norm_num
        _ ≤ 2 ^ (8 + i) := Nat.pow_le_pow_right (by norm_num) (by omega)
    rw [h1, h2]

theorem testBit_240 (i : Nat) : Nat.testBit 240 (4 + i) = Nat.testBit 15 i := by
  rcases Nat.lt_or_ge i 4 with h | h
  · interval_cases i <;> decide
  · have h1 : Nat.testBit 15 i = false := by
      apply Nat.testBit_lt_two_pow
      calc (15 : Nat) < 2 ^ 4 := by norm_num
        _ ≤ 2 ^ i := Nat.pow_le_pow_right (by norm_num) h
    have h2 : Nat.testBit 240 (4 + i) = false := by
      apply Nat.testBit_lt_two_pow
      calc (240 : Nat) < 2 ^ 8 := by norm_num
        _ ≤ 2 ^ (4 + i) := Nat.pow_le_pow_right (by norm_num) (by omega)
    rw [h1, h2]

theorem and_f00_shiftRight (n : Nat) : (n &&& 0xF00) >>> 8 = (n >>> 8) &&& 0xF := by
  apply Nat.eq_of_testBit_eq
  intro i
  simp [Nat.testBit_and, Nat.testBit_shiftRight, testBit_3840]

theorem and_0f0_shiftRight (n : Nat) : (n &&& 0x0F0) >>> 4 = (n >>> 4) &&& 0xF := by
  apply Nat.eq_of_testBit_eq
  intro i
  simp [Nat.testBit_and, Nat.testBit_shiftRight, testBit_240]

theorem first_color_eq_specA (n : Nat) : first_color n = specA n := by
  unfold first_color specA chanA
  rw [and_f00_shiftRight, Nat.mul_comm]

theorem second_color_eq_specB (n : Nat) : second_color n = specB n := by
  unfold second_color specB chanB
  rw [and_0f0_shiftRight, Nat.mul_comm]

theorem third_color_eq_specC (n : Nat) : third_color n = specC n := by
  unfold third_color specC chanC
  rw [Nat.mul_comm]

/-- C3 (counterexample): at `n = 0x123` (iteration count 291 < 4095) and
scheme 0, the code's stored triple is not the spec table's row-0 triple
`(a,b,c)`: the code stores `(c,b,a) = (51,34,17)`, the table says
`(17,34,51)`. -/
theorem scheme0_differs_from_spec_table :
    update_rgb_buffer 0x123 0 ≠ spec_color_mapper 0x123 0 := by
  decide

/-- C3 (amended): for every iteration count `n < iteration_max`, every
scheme other than 0 (schemes 1–5 and every out-of-range selector) stores
exactly the triple the spec's table prescribes, but scheme 0 stores
`(R,G,B) = (c,b,a)` — the reverse of the table's row 0 — where
`a = ((n>>8)&0xF)*17`, `b = ((n>>4)&0xF)*17`, `c = (n&0xF)*17`. -/
theorem update_rgb_buffer_table (n : Nat) (h : n < iteration_max) :
    (∀ s : Int, s ≠ 0 → update_rgb_buffer n s = spec_color_mapper n s) ∧
    update_rgb_buffer n 0 = (chanC n, chanB n, chanA n) := by
  have hn : ¬ n ≥ iteration_max := by omega
  constructor
  · intro s hs
    unfold update_rgb_buffer spec_color_mapper
    rw [first_color_eq_specA, second_color_eq_specB, third_color_eq_specC]
    simp only [if_neg hs]
  · unfold update_rgb_buffer
    simp only [if_pos rfl]
    unfold first_color second_color third_color chanA chanB chanC
    rw [if_neg hn, if_neg hn, if_neg hn,
      and_f00_shiftRight, and_0f0_shiftRight]
    simp [Nat.mul_comm]

/-- C3 witness: the amended table theorem instantiated at `n = 0x123`,
scheme 2. -/
theorem update_rgb_buffer_table_witness :
    update_rgb_buffer 0x123 2 = spec_color_mapper 0x123 2 ∧
    update_rgb_buffer 0x123 0 = (chanC 0x123, chanB 0x123, chanA 0x123) :=
  ⟨(update_rgb_buffer_table 0x123 (by decide)).1 2 (by decide),
   (update_rgb_buffer_table 0x123 (by decide)).2⟩

/-- C4 (counterexample): schemes 0 and 3 do not produce identical output:
at iteration count `n = 0x123`, scheme 0 stores `(51,34,17)` while scheme 3
stores `(17,34,51)`. -/
theorem scheme0_ne_scheme3 :
    update_rgb_buffer 0x123 0 ≠ update_rgb_buffer 0x123 3 := by
  decide

/-- C4 (amended): for every iteration count, scheme 0 stores the
componentwise reversal of the triple scheme 3 stores (so the two schemes
coincide exactly when the first and third derived channel values are equal,
e.g. for `n ≥ iteration_max`, and not in general). -/
theorem scheme0_reverses_scheme3 (n : Nat) :
    update_rgb_buffer n 0 =
      ((update_rgb_buffer n 3).2.2, (update_rgb_buffer n 3).2.1,
        (update_rgb_buffer n 3).1) := by
  unfold update_rgb_buffer
  norm_num

/-- C4 witness: the reversal theorem instantiated at `n = 7`. -/
theorem scheme0_reverses_scheme3_witness :
    update_rgb_buffer 7 0 =
      ((update_rgb_buffer 7 3).2.2, (update_rgb_buffer 7 3).2.1,
        (update_rgb_buffer 7 3).1) :=
  scheme0_reverses_scheme3 7

/-- C5: for every iteration count `n ≥ iteration_max` and every scheme
(in range or not), `update_rgb_buffer` stores pure black `(0,0,0)`. -/
theorem update_rgb_buffer_black (n : Nat) (s : Int) (h : n ≥ iteration_max) :
    update_rgb_buffer n s = (0, 0, 0) := by
  unfold update_rgb_buffer first_color second_color third_color
  rw [if_pos h]
  split_ifs <;> rfl

/-- C5 witness: at `n = iteration_max = 4095` and scheme 2 the stored triple
is `(0,0,0)`. -/
theorem update_rgb_buffer_black_witness :
    4095 ≥ iteration_max ∧ update_rgb_buffer 4095 2 = (0, 0, 0) :=
  ⟨by decide, update_rgb_buffer_black 4095 2 (by decide)⟩

/-- C10: every colour-scheme selector outside `{0,1,2,3,4}` — including 6
and -1 — falls through to the final `else` and stores exactly what scheme 5
stores. -/
theorem update_rgb_buffer_default_scheme (n : Nat) (s : Int)
    (h0 : s ≠ 0) (h1 : s ≠ 1) (h2 : s ≠ 2) (h3 : s ≠ 3) (h4 : s ≠ 4) :
    update_rgb_buffer n s = update_rgb_buffer n 5 := by
  unfold update_rgb_buffer
  simp only [if_neg h0, if_neg h1, if_neg h2, if_neg h3, if_neg h4]
  norm_num

/-- C10 witness: at `n = 7`, the out-of-range selectors 6 and -1 store the
same triple as scheme 5. -/
theorem update_rgb_buffer_default_scheme_witness :
    update_rgb_buffer 7 6 = update_rgb_buffer 7 5 ∧
    update_rgb_buffer 7 (-1) = update_rgb_buffer 7 5 :=
  ⟨update_rgb_buffer_default_scheme 7 6 (by decide) (by decide) (by decide)
      (by decide) (by decide),
   update_rgb_buffer_default_scheme 7 (-1) (by decide) (by decide) (by decide)
      (by decide) (by decide)⟩

/-- The viewport globals set by `init`: the four bounds and `image_size`
(`i_x_max = i_y_max = image_size`). -/
structure Viewport where
  c_x_min : ℚ
  c_x_max : ℚ
  c_y_min : ℚ
  c_y_max : ℚ
  image_size : Nat

/-- Derived `pixel_width = (c_x_max - c_x_min) / i_x_max` from `init`. -/
def pixel_width (v : Viewport) : ℚ := (v.c_x_max - v.c_x_min) / v.image_size

/-- Derived `pixel_height = (c_y_max - c_y_min) / i_y_max` from `init`. -/
def pixel_height (v : Viewport) : ℚ := (v.c_y_max - v.c_y_min) / v.image_size

/-- Column coordinate `c_x = c_x_min + i_x * pixel_width`, from the column
loop of both variants. -/
def map_cx (v : Viewport) (i_x : Nat) : ℚ := v.c_x_min + i_x * pixel_width v

/-- Row coordinate `c_y = c_y_min + i_y * pixel_height`, overwritten with
exactly `0` when `|c_y| < pixel_height / 2`, from the row loop of both
variants. -/
def map_cy (v : Viewport) (i_y : Nat) : ℚ :=
  if |v.c_y_min + i_y * pixel_height v| < pixel_height v / 2 then 0
  else v.c_y_min + i_y * pixel_height v

/-- C6: the plane point fed to the escape loop is
`cx = c_x_min + i_x*pixel_width` and `cy = c_y_min + i_y*pixel_height`,
except that when `|cy| < pixel_height/2` the `cy` actually used is exactly
`0`. -/
theorem coordinate_mapper_spec (v : Viewport) (i_x i_y : Nat) :
    map_cx v i_x = v.c_x_min + i_x * pixel_width v ∧
    (|v.c_y_min + i_y * pixel_height v| < pixel_height v / 2 →
      map_cy v i_y = 0) ∧
    (pixel_height v / 2 ≤ |v.c_y_min + i_y * pixel_height v| →
      map_cy v i_y = v.c_y_min + i_y * pixel_height v) := by
  refine ⟨rfl, fun h => ?_, fun h => ?_⟩
  · unfold map_cy
    rw [if_pos h]
  · unfold map_cy
    rw [if_neg (not_lt.mpr h)]

/-- C6 witness: viewport `(-2,2,-2,2)` at resolution 4 has
`pixel_height = 1`; row 2 lands on `cy = 0` (snapped, `|0| < 1/2`) and row 1
on `cy = -1` (not snapped). -/
theorem coordinate_mapper_spec_witness :
    map_cy ⟨-2, 2, -2, 2, 4⟩ 2 = 0 ∧
    map_cy ⟨-2, 2, -2, 2, 4⟩ 1 =
      (⟨-2, 2, -2, 2, 4⟩ : Viewport).c_y_min +
        1 * pixel_height ⟨-2, 2, -2, 2, 4⟩ :=
  ⟨(coordinate_mapper_spec ⟨-2, 2, -2, 2, 4⟩ 0 2).2.1
      (by norm_num [pixel_height]),
   (coordinate_mapper_spec ⟨-2, 2, -2, 2, 4⟩ 0 1).2.2
      (by norm_num [pixel_height])⟩

/-- The escape-time inner loop, identical in `compute_mandelbrot` and
`iterate_y`.  `fuel` is the number of iterations still allowed
(`iteration_max - iteration`); the result is the number of loop-body
executions.  The state is `(z_x, z_y, z_x_squared, z_y_squared)`; the body
computes the new `z_y = 2*z_x*z_y + c_y` from the old `z_x` before `z_x`
is overwritten with `z_x_squared - z_y_squared + c_x`, and the escape test
`z_x_squared + z_y_squared < 4` guards each body execution. -/
def escapeLoop (c_x c_y : ℚ) : Nat → ℚ → ℚ → ℚ → ℚ → Nat
  | 0, _, _, _, _ => 0
  | fuel + 1, z_x, z_y, z_x_squared, z_y_squared =>
    if z_x_squared + z_y_squared < 4 then
      escapeLoop c_x c_y fuel (z_x_squared - z_y_squared + c_x)
        (2 * z_x * z_y + c_y)
        ((z_x_squared - z_y_squared + c_x) * (z_x_squared - z_y_squared + c_x))
        ((2 * z_x * z_y + c_y) * (2 * z_x * z_y + c_y)) + 1
    else 0

/-- The escape-time evaluator: the `for(iteration = 0; iteration <
iteration_max && (z_x_squared + z_y_squared) < 4; iteration++)` loop started
from `z = 0 + 0i`, returning the final value of `iteration`. -/
def escape_time (c_x c_y : ℚ) : Nat :=
  escapeLoop c_x c_y iteration_max 0 0 0 0

theorem escapeLoop_le (c_x c_y : ℚ) :
    ∀ (fuel : Nat) (z_x z_y a b : ℚ), escapeLoop c_x c_y fuel z_x z_y a b ≤ fuel := by
  intro fuel
  induction fuel with
  | zero => intro z_x z_y a b; rfl
  | succ n ih =>
    intro z_x z_y a b
    rw [escapeLoop]
    split
    · exact Nat.succ_le_succ (ih _ _ _ _)
    · exact Nat.zero_le _

theorem escapeLoop_pos (c_x c_y : ℚ) (fuel : Nat) (h : 0 < fuel) :
    1 ≤ escapeLoop c_x c_y fuel 0 0 0 0 := by
  cases fuel with
  | zero => omega
  | succ n =>
    rw [escapeLoop]
    rw [if_pos (by norm_num)]
    omega

theorem escapeLoop_never_escapes (n : Nat) :
    escapeLoop 0 0 n 0 0 0 0 = n := by
  induction n with
  | zero => rfl
  | succ m ih =>
    rw [escapeLoop]
    rw [if_pos (by norm_num)]
    norm_num
    convert ih using 2

/-- C9: for every plane point, the escape loop returns an iteration count in
`[1, iteration_max]`; the value 0 is unreachable because `z` starts at
`0 + 0i`, so the escape test `0 + 0 < 4` passes before the first iteration
and at least one iteration completes. -/
theorem escape_time_bounds (c_x c_y : ℚ) :
    1 ≤ escape_time c_x c_y ∧ escape_time c_x c_y ≤ iteration_max :=
  ⟨escapeLoop_pos c_x c_y iteration_max (by norm_num [iteration_max]),
   escapeLoop_le c_x c_y iteration_max 0 0 0 0⟩

/-- C7: the escape-time evaluator (iterating `z ← z² + c` from `z = 0+0i`,
with `z_y` updated before `z_x`, stopping at `z_x²+z_y² ≥ 4` or at
`iteration_max = 4095` completed iterations) returns `iteration_max` at the
in-set point `(0,0)` and `1` at the far-outside point `(2,2)`, which escapes
within one iteration. -/
theorem escape_time_boundary :
    escape_time 0 0 = iteration_max ∧ escape_time 2 2 = 1 := by
  constructor
  · exact escapeLoop_never_escapes iteration_max
  · unfold escape_time iteration_max
    rw [show (0xFFF : Nat) = 4094 + 1 from rfl]
    rw [escapeLoop]
    rw [if_pos (by norm_num)]
    rw [show (4094 : Nat) = 4093 + 1 from rfl]
    rw [escapeLoop]
    rw [if_neg (by norm_num)]

/-- The row indices visited by `for(i_y = start; i_y < res; i_y += T)`,
with explicit fuel (an upper bound on the number of loop iterations; `res`
always suffices when `T ≥ 1`). -/
def rowsFrom (T res : Nat) : Nat → Nat → List Nat
  | 0, _ => []
  | fuel + 1, start => if start < res then start :: rowsFrom T res fuel (start + T) else []

/-- The rows owned by worker `t` (1-indexed) in `iterate_y`:
`for(i_y = st - 1; i_y < i_y_max; i_y += NUM_THREADS)`. -/
def workerRows (T res t : Nat) : List Nat := rowsFrom T res res (t - 1)

theorem rowsFrom_nil (T res start : Nat) (h : res ≤ start) (fuel : Nat) :
    rowsFrom T res fuel start = [] := by
  cases fuel with
  | zero => rfl
  | succ n =>
    rw [rowsFrom]
    rw [if_neg (by omega)]

theorem mem_rowsFrom (T res : Nat) (hT : 1 ≤ T) :
    ∀ (fuel start iy : Nat), res ≤ start + fuel →
      (iy ∈ rowsFrom T res fuel start ↔ iy < res ∧ ∃ k, iy = start + k * T) := by
  intro fuel
  induction fuel with
  | zero =>
    intro start iy hfuel
    rw [rowsFrom]
    simp only [List.not_mem_nil, false_iff]
    rintro ⟨hlt, k, rfl⟩
    have : start ≤ start + k * T := Nat.le_add_right _ _
    omega
  | succ n ih =>
    intro start iy hfuel
    rw [rowsFrom]
    by_cases hs : start < res
    · rw [if_pos hs]
      simp only [List.mem_cons]
      rw [ih (start + T) iy (by omega)]
      constructor
      · rintro (rfl | ⟨hlt, k, rfl⟩)
        · exact ⟨hs, 0, by omega⟩
        · refine ⟨hlt, k + 1, ?_⟩
          rw [Nat.succ_mul]
          omega
      · rintro ⟨hlt, k, rfl⟩
        cases k with
        | zero => left; omega
        | succ m =>
          right
          refine ⟨hlt, m, ?_⟩
          rw [Nat.succ_mul]
          omega
    · rw [if_neg hs]
      simp only [List.not_mem_nil, false_iff]
      rintro ⟨hlt, k, rfl⟩
      have : start ≤ start + k * T := Nat.le_add_right _ _
      omega

theorem mem_workerRows (T res t : Nat) (hT : 1 ≤ T) (iy : Nat) :
    iy ∈ workerRows T res t ↔ iy < res ∧ ∃ k, iy = (t - 1) + k * T := by
  unfold workerRows
  exact mem_rowsFrom T res hT res (t - 1) iy (Nat.le_add_left _ _)

theorem workerRows_lt (T res t iy : Nat) (hT : 1 ≤ T)
    (h : iy ∈ workerRows T res t) : iy < res :=
  ((mem_workerRows T res t hT iy).mp h).1

/-- C2: for every resolution and every worker count `T ≥ 1`, every row index
`iy ∈ [0, res)` is owned by exactly one worker `t ∈ [1, T]` (round-robin
stripe `{t-1, t-1+T, t-1+2T, …}`), and no worker visits a row outside
`[0, res)`; hence the buffer slots of row `iy` are written exactly once, by
that unique worker. -/
theorem worker_partition (T res : Nat) (hT : 1 ≤ T) :
    (∀ t iy, iy ∈ workerRows T res t → iy < res) ∧
    (∀ iy, iy < res → ∃! t, 1 ≤ t ∧ t ≤ T ∧ iy ∈ workerRows T res t) := by
  constructor
  · intro t iy h
    exact workerRows_lt T res t iy hT h
  · intro iy hiy
    refine ⟨iy % T + 1, ⟨Nat.le_add_left _ _, by
      have := Nat.mod_lt iy (show 0 < T by omega)
      omega, ?_⟩, ?_⟩
    · rw [mem_workerRows T res _ hT]
      refine ⟨hiy, iy / T, ?_⟩
      have h1 := Nat.mod_add_div iy T
      have h2 : T * (iy / T) = iy / T * T := Nat.mul_comm _ _
      omega
    · rintro t ⟨ht1, htT, hmem⟩
      obtain ⟨-, k, hk⟩ := (mem_workerRows T res t hT iy).mp hmem
      have hmod : iy % T = t - 1 := by
        rw [hk]
        rw [Nat.add_mul_mod_self_right]
        exact Nat.mod_eq_of_lt (by omega)
      omega

/-- C2 witness: with `T = 3` workers and resolution 5, membership is bounded
by the resolution and row 4 is owned by exactly one worker (worker 2, rows
`{1, 4}`). -/
theorem worker_partition_witness :
    (∀ t iy, iy ∈ workerRows 3 5 t → iy < 5) ∧
    (∀ iy, iy < 5 → ∃! t, 1 ≤ t ∧ t ≤ 3 ∧ iy ∈ workerRows 3 5 t) :=
  worker_partition 3 5 (by norm_num)

/-- The pixel buffer: flat slot index ↦ the byte triple stored there
(`none` = slot never written). -/
def Buffer : Type := Nat → Option (Nat × Nat × Nat)

/-- The freshly allocated buffer, before any write. -/
def emptyBuffer : Buffer := fun _ => none

/-- The triple computed for pixel `(i_x, i_y)`: coordinate mapper, then
escape-time evaluator, then colour mapper — the shared per-pixel pipeline of
both variants. -/
def pixelColor (v : Viewport) (scheme : Int) (i_x i_y : Nat) : Nat × Nat × Nat :=
  update_rgb_buffer (escape_time (map_cx v i_x) (map_cy v i_y)) scheme

/-- One call `update_rgb_buffer(iteration, i_x, i_y, scheme)` as a write of
the computed triple at slot `i_y_max * i_y + i_x`. -/
def writePixel (v : Viewport) (scheme : Int) (i_x i_y : Nat) (b : Buffer) : Buffer :=
  fun idx =>
    if idx = v.image_size * i_y + i_x then some (pixelColor v scheme i_x i_y)
    else b idx

/-- The inner column loop `for(i_x = 0; i_x < i_x_max; i_x++)` over one
row, identical in both variants. -/
def runRow (v : Viewport) (scheme : Int) (i_y : Nat) (b : Buffer) : Buffer :=
  (List.range v.image_size).foldl (fun b i_x => writePixel v scheme i_x i_y b) b

/-- A sequence of row computations in list order. -/
def runRows (v : Viewport) (scheme : Int) (rows : List Nat) (b : Buffer) : Buffer :=
  rows.foldl (fun b i_y => runRow v scheme i_y b) b

/-- Function `compute_mandelbrot` of the sequential variant: the row loop
`for(i_y = 0; i_y < i_y_max; i_y++)` over the whole image. -/
def compute_mandelbrot (v : Viewport) (scheme : Int) : Buffer :=
  runRows v scheme (List.range v.image_size) emptyBuffer

/-- Function `iterate_y` of the pthread variant: worker `t` computes its row stripe
`t-1, t-1+T, t-1+2T, …` with the same per-pixel pipeline. -/
def iterate_y (v : Viewport) (scheme : Int) (T t : Nat) (b : Buffer) : Buffer :=
  runRows v scheme (workerRows T v.image_size t) b

/-- The pthread run: workers `t = 1..T` over their disjoint stripes,
serialized in worker order (any serialization of the disjoint writes yields
this same buffer; see the header note). -/
def pthread_run (v : Viewport) (scheme : Int) (T : Nat) : Buffer :=
  (List.range T).foldl (fun b i => iterate_y v scheme T (i + 1) b) emptyBuffer

theorem slot_div_mod (res i_y i_x : Nat) (hres : 0 < res) (hx : i_x < res) :
    (res * i_y + i_x) / res = i_y ∧ (res * i_y + i_x) % res = i_x := by
  constructor
  · rw [Nat.mul_add_div hres, Nat.div_eq_of_lt hx, Nat.add_zero]
  · rw [Nat.mul_add_mod, Nat.mod_eq_of_lt hx]

theorem foldl_writePixel_apply (v : Viewport) (scheme : Int) (i_y : Nat) :
    ∀ (cols : List Nat) (b : Buffer) (idx : Nat),
      (cols.foldl (fun b i_x => writePixel v scheme i_x i_y b) b) idx =
      if ∃ i_x, i_x ∈ cols ∧ idx = v.image_size * i_y + i_x
      then some (pixelColor v scheme (idx - v.image_size * i_y) i_y)
      else b idx := by
  intro cols
  induction cols with
  | nil =>
    intro b idx
    simp
  | cons c cs ih =>
    intro b idx
    rw [List.foldl_cons, ih]
    by_cases h1 : ∃ i_x, i_x ∈ cs ∧ idx = v.image_size * i_y + i_x
    · obtain ⟨ix, hmem, hidx⟩ := h1
      rw [if_pos ⟨ix, hmem, hidx⟩,
        if_pos ⟨ix, List.mem_cons_of_mem c hmem, hidx⟩]
    · rw [if_neg h1]
      unfold writePixel
      by_cases h2 : idx = v.image_size * i_y + c
      · rw [if_pos h2, if_pos ⟨c, List.mem_cons_self c cs, h2⟩]
        have hc : idx - v.image_size * i_y = c := by omega
        rw [hc]
      · rw [if_neg h2, if_neg ?_]
        rintro ⟨ix, hmem, hidx⟩
        rcases List.mem_cons.mp hmem with rfl | hmem'
        · exact h2 hidx
        · exact h1 ⟨ix, hmem', hidx⟩

theorem runRow_apply (v : Viewport) (scheme : Int) (hres : 0 < v.image_size)
    (i_y : Nat) (b : Buffer) (idx : Nat) :
    runRow v scheme i_y b idx =
    if idx / v.image_size = i_y
    then some (pixelColor v scheme (idx % v.image_size) i_y)
    else b idx := by
  unfold runRow
  rw [foldl_writePixel_apply]
  by_cases h : idx / v.image_size = i_y
  · have hmod := Nat.div_add_mod idx v.image_size
    rw [h] at hmod
    have hxlt : idx % v.image_size < v.image_size := Nat.mod_lt idx hres
    rw [if_pos ⟨idx % v.image_size, List.mem_range.mpr hxlt, by omega⟩, if_pos h]
    have harg : idx - v.image_size * i_y = idx % v.image_size := by omega
    rw [harg]
  · rw [if_neg ?_, if_neg h]
    rintro ⟨ix, hmem, rfl⟩
    exact h (slot_div_mod v.image_size i_y ix hres (List.mem_range.mp hmem)).1

theorem runRows_apply (v : Viewport) (scheme : Int) (hres : 0 < v.image_size) :
    ∀ (rows : List Nat) (b : Buffer) (idx : Nat),
      runRows v scheme rows b idx =
      if idx / v.image_size ∈ rows
      then some (pixelColor v scheme (idx % v.image_size) (idx / v.image_size))
      else b idx := by
  intro rows
  induction rows with
  | nil =>
    intro b idx
    simp [runRows]
  | cons r rs ih =>
    intro b idx
    unfold runRows
    rw [List.foldl_cons]
    rw [show rs.foldl (fun b i_y => runRow v scheme i_y b)
        (runRow v scheme r b) = runRows v scheme rs (runRow v scheme r b) from rfl]
    rw [ih]
    by_cases h1 : idx / v.image_size ∈ rs
    · rw [if_pos h1, if_pos (List.mem_cons_of_mem r h1)]
    · rw [if_neg h1, runRow_apply v scheme hres]
      by_cases h2 : idx / v.image_size = r
      · rw [if_pos h2, if_pos (List.mem_cons.mpr (Or.inl h2))]
        rw [h2]
      · rw [if_neg h2, if_neg ?_]
        rintro hmem
        rcases List.mem_cons.mp hmem with h | h
        · exact h2 h
        · exact h1 h

theorem pthread_partial_apply (v : Viewport) (scheme : Int) (T : Nat)
    (hres : 0 < v.image_size) :
    ∀ (k : Nat) (b : Buffer) (idx : Nat),
      ((List.range k).foldl (fun b i => iterate_y v scheme T (i + 1) b) b) idx =
      if ∃ i, i < k ∧ idx / v.image_size ∈ workerRows T v.image_size (i + 1)
      then some (pixelColor v scheme (idx % v.image_size) (idx / v.image_size))
      else b idx := by
  intro k
  induction k with
  | zero =>
    intro b idx
    simp
  | succ n ih =>
    intro b idx
    rw [List.range_succ, List.foldl_append, List.foldl_cons, List.foldl_nil]
    rw [show iterate_y v scheme T (n + 1)
        ((List.range n).foldl (fun b i => iterate_y v scheme T (i + 1) b) b) =
        runRows v scheme (workerRows T v.image_size (n + 1))
        ((List.range n).foldl (fun b i => iterate_y v scheme T (i + 1) b) b) from rfl]
    rw [runRows_apply v scheme hres, ih]
    by_cases h1 : idx / v.image_size ∈ workerRows T v.image_size (n + 1)
    · rw [if_pos h1, if_pos ⟨n, Nat.lt_succ_self n, h1⟩]
    · rw [if_neg h1]
      by_cases h2 : ∃ i, i < n ∧ idx / v.image_size ∈ workerRows T v.image_size (i + 1)
      · obtain ⟨i, hik, hmem⟩ := h2
        rw [if_pos ⟨i, hik, hmem⟩, if_pos ⟨i, Nat.lt_succ_of_lt hik, hmem⟩]
      · rw [if_neg h2, if_neg ?_]
        rintro ⟨i, hik, hmem⟩
        rcases Nat.lt_succ_iff_lt_or_eq.mp hik with h | rfl
        · exact h2 ⟨i, h, hmem⟩
        · exact h1 hmem

/-- C1: for every viewport with `x_min < x_max`, `y_min < y_max`,
`resolution > 0`, every colour scheme, and every worker count `T ≥ 1`, the
buffer produced by the pthread variant (workers `iterate_y` for
`t = 1..T` over their row stripes) is identical, slot for slot, to the
buffer produced by the sequential variant's `compute_mandelbrot`; in
particular it does not depend on `T`. -/
theorem pthread_run_eq_compute_mandelbrot (v : Viewport) (scheme : Int)
    (T : Nat) (hT : 1 ≤ T) (hx : v.c_x_min < v.c_x_max)
    (hy : v.c_y_min < v.c_y_max) (hres : 0 < v.image_size) :
    pthread_run v scheme T = compute_mandelbrot v scheme := by
  funext idx
  unfold pthread_run compute_mandelbrot
  rw [pthread_partial_apply v scheme T hres, runRows_apply v scheme hres]
  have hiff : (∃ i, i < T ∧ idx / v.image_size ∈ workerRows T v.image_size (i + 1)) ↔
      idx / v.image_size ∈ List.range v.image_size := by
    constructor
    · rintro ⟨i, hiT, hmem⟩
      exact List.mem_range.mpr (workerRows_lt T v.image_size (i + 1) _ hT hmem)
    · intro h
      obtain ⟨t, ⟨ht1, htT, hmem⟩, -⟩ :=
        (worker_partition T v.image_size hT).2 (idx / v.image_size)
          (List.mem_range.mp h)
      refine ⟨t - 1, by omega, ?_⟩
      rw [show t - 1 + 1 = t by omega]
      exact hmem
  rw [if_congr hiff rfl rfl]

/-- C1 witness: a 2×2 viewport rendered with 2 workers equals the sequential
render. -/
theorem pthread_run_eq_compute_mandelbrot_witness :
    pthread_run ⟨-2, 2, -2, 2, 2⟩ 0 2 = compute_mandelbrot ⟨-2, 2, -2, 2, 2⟩ 0 :=
  pthread_run_eq_compute_mandelbrot ⟨-2, 2, -2, 2, 2⟩ 0 2 (by norm_num)
    (by norm_num) (by norm_num) (by norm_num)

/-- The outcome of a program run: either the usage message was printed and
the process exited with the given status before any buffer existed, or the
run completed with a filled buffer and an exit status. -/
inductive RunOutcome where
  | usage (exitStatus : Nat)
  | completed (buf : Buffer) (exitStatus : Nat)

/-- Function `main` of the sequential variant: `init` prints the usage text and calls
`exit(0)` when `argc < 6`, before `allocate_image_buffer` and
`compute_mandelbrot` run; otherwise the buffer is computed and `main`
returns 0.  (The pthread variant's `init` has the same `argc < 6` guard,
usage text and `exit(0)` before its allocation and thread dispatch.) -/
def mandelbrot_main (argc : Nat) (v : Viewport) (scheme : Int) : RunOutcome :=
  if argc < 6 then RunOutcome.usage 0
  else RunOutcome.completed (compute_mandelbrot v scheme) 0

/-- C8: fewer than 6 command-line arguments terminate the run with the usage
outcome and exit status 0 — a non-failure status — and no buffer is
allocated or computed (the `usage` outcome carries none). -/
theorem usage_exit_zero (argc : Nat) (v : Viewport) (scheme : Int)
    (h : argc < 6) : mandelbrot_main argc v scheme = RunOutcome.usage 0 := by
  unfold mandelbrot_main
  rw [if_pos h]

/-- C8 witness: a run with `argc = 3` exits through the usage path with
status 0. -/
theorem usage_exit_zero_witness :
    mandelbrot_main 3 ⟨-2, 2, -2, 2, 4⟩ 0 = RunOutcome.usage 0 :=
  usage_exit_zero 3 ⟨-2, 2, -2, 2, 4⟩ 0 (by norm_num)

end Mandelbrot
